import Mathlib

/-!
Verification of the repoctx persistent card store (module cards, symbol cards,
keyword index, staleness detection, checkpoint) against its specification.

The TypeScript sources are shallowly embedded:
* `src/get.ts` (`getContext`, `getStale`), `src/save.ts` (`saveManual`,
  `findWhereUsed`), `src/saveSymbol.ts` (`saveSymbol`, `parseRelated`) and
  `src/checkpoint.ts` (`saveCheckpoint`) are translated function by function.
* The storage backend `src/cache.ts` (`fileHash`, `refFromPath`,
  `computePublicSurfaceHash`, `loadIndex`, `loadFileCache`, `saveFileCache`
  with its keyword-index rebuild, `lookupByKeywords`, `loadSymbolsIndex`,
  `saveSymbolCard`, `loadAllSymbols`, `getGitHead`) is translated from the
  source as well; line references in the doc comments cite it by its own line
  numbers.
* External effects (the filesystem, the SHA-1 digest primitive, git, the
  recursive grep of `findWhereUsed`, path resolution against the process cwd
  and the current clock) are fields of an explicit environment record `Env`.

JavaScript idioms are mapped as follows: `undefined`-able values become
`Option`, string truthiness (`if (s)`) becomes a test against `""`, thrown
exceptions become `Except`, and a `try { … } catch { … }` around a read
becomes a `match` on the `Option` result of the read.
-/

set_option autoImplicit false
set_option linter.unusedVariables false

namespace Repoctx

/-- An `{name, kind}` export entry of a module card (`ExportEntry` in cache.ts). -/
structure ExportEntry where
  name : String
  kind : String
deriving Repr, DecidableEq

/-- A directed labeled edge to another symbol (`SymbolRelation` in cache.ts). -/
structure SymbolRelation where
  symbol : String
  relation : String
deriving Repr, DecidableEq

/-- A symbol card as stored by `saveSymbolCard` (`SymbolCard` in cache.ts).
Optional fields are those the writer omits (`Option`). -/
structure SymbolCard where
  symbol : String
  kind : String
  file : String
  purpose : String
  updatedAt : String
  signature : Option String := none
  related : Option (List SymbolRelation) := none
  keywords : Option (List String) := none
deriving Repr, DecidableEq

/-- A module card record (`RepoctxFileCache` in cache.ts, lines 128–141):
`path`, `hash`, `summary`, `symbols`, `updatedAt` are required, everything
else — including `keywords` — is optional. -/
structure FileCache where
  path : String
  hash : String
  summary : String
  symbols : List String
  keywords : Option (List String) := none
  updatedAt : String
  publicSurfaceHash : Option String := none
  exports : Option (List ExportEntry) := none
  dependencies : Option (List String) := none
  footguns : Option String := none
  delta : Option String := none
  repoHeadAtSave : Option String := none
deriving Repr, DecidableEq

/-- The git information the external version-control collaborator can supply;
`none` models running outside a git repository (where `git rev-parse` fails). -/
structure GitInfo where
  head : String
  branch : String
deriving Repr, DecidableEq

/-- The checkpoint record (`Checkpoint` in checkpoint.ts; its `at` field is
named `savedAt` here because `at` is a Lean keyword). -/
structure Checkpoint where
  head : String
  branch : String
  savedAt : String
deriving Repr, DecidableEq

/-- The process environment: filesystem, hash primitive, git context, grep
output, path resolution and clock. All I/O performed by the TypeScript code is
read off this record.

* `fs rel` is the byte content of the file at canonical repo-relative path
  `rel`, or `none` when reading fails (absent file, permission, any I/O
  error) — reading is where `fileHash` throws.
* `hashBytes` is the hex SHA-1 digest of a byte sequence
  (`crypto.createHash("sha1").update(buf).digest("hex")`, cache.ts line 208);
  `hashStr` is the same digest applied to a string, as used by `refFromPath`
  and `computePublicSurfaceHash` (cache.ts lines 213 and 217). Both are pure
  and deterministic.
* `grepOut rel` models the raw line list produced by the external
  `grep -r … -l <basename of rel>` invocation of `findWhereUsed`.
* `resolveRel p` models `path.relative(process.cwd(), path.resolve(p))`,
  which depends only on the process working directory. -/
structure Env where
  fs : String → Option (List Nat)
  hashBytes : List Nat → String
  hashStr : String → String
  git : Option GitInfo
  now : String
  resolveRel : String → String
  grepOut : String → List String

/-- One entry of the index's `files` map: `{ hash, ref }`, where `ref` is the
path-derived record filename (cache.ts line 146). -/
structure IndexEntry where
  hash : String
  ref : String
deriving Repr, DecidableEq

/-- The `index.json` document (`RepoctxIndex`, cache.ts lines 143–148):
`files` maps each indexed path to `{hash, ref}` and `keywordIndex` maps each
keyword to its list of paths. JavaScript `Record`s are modelled as
insertion-ordered association lists (`Object.keys`/`Object.values` iterate
insertion order; assignment to an existing key keeps its position). The
constant `version: 1` and the unused `metaVersion` schema fields are
omitted. -/
structure Index where
  files : List (String × IndexEntry)
  keywordIndex : List (String × List String)
deriving Repr, DecidableEq

/-- The `symbols-index.json` document (`SymbolsIndex`, cache.ts lines
168–171): symbol name → record filename in the symbols directory. The
constant `version: 1` field is omitted. -/
structure SymbolsIndex where
  symbols : List (String × String)
deriving Repr, DecidableEq

/-- The `.repoctx/` storage root. `filesDir` and `symbolsDir` are the record
directories, keyed by record filename; a stored value of `none` models a file
whose `JSON.parse` fails (corrupt), while an absent key models a file whose
read fails — both make the guarded loaders return null/skip. `index` and
`symbolsIndex` hold the two index documents: `loadIndex`/`loadSymbolsIndex`
re-read them on every operation (cache.ts lines 222–233 and 299–307), and a
missing or corrupt document is the state where the field holds the empty
default (which is also how the missing-`keywordIndex` back-compat case loads),
so the documents are embedded as their parsed values. -/
structure Store where
  index : Index
  filesDir : List (String × Option FileCache)
  symbolsIndex : SymbolsIndex
  symbolsDir : List (String × Option SymbolCard)
  checkpoint : Option Checkpoint
deriving Repr, DecidableEq

/-- Replace the value at key `k`, or append the pair when `k` is absent; the
derived-reference-from-key scheme of the spec means a save always lands on the
same slot for the same key. -/
def upsert {α : Type} : List (String × α) → String → α → List (String × α)
  | [], k, v => [(k, v)]
  | e :: es, k, v => if e.1 = k then (k, v) :: es else e :: upsert es k v

/-- First value stored under key `k`, if any. -/
def lookupKey {α : Type} (l : List (String × α)) (k : String) : Option α :=
  (l.find? (fun e => e.1 = k)).map (fun e => e.2)

/-! ### String plumbing

The JavaScript string operations used by the sources (`split` on a one-char
separator, `trim`, `toLowerCase`, `startsWith`, `includes`, `join`,
`replaceAll`) are given structural-recursion implementations over the
character list of the string, so that every definition evaluates by kernel
reduction. -/

/-- JS `s.split(sep)` for a one-character separator: never returns an empty
list, and preserves empty segments. -/
def splitChar (sep : Char) (s : String) : List String :=
  (go s.data).map String.mk
where
  go : List Char → List (List Char)
    | [] => [[]]
    | c :: cs =>
      match go cs with
      | [] => [[]]
      | h :: t => if c = sep then [] :: h :: t else (c :: h) :: t

/-- JS `s.trim()`: strip leading and trailing whitespace. -/
def trimStr (s : String) : String :=
  String.mk (((s.data.dropWhile Char.isWhitespace).reverse.dropWhile
    Char.isWhitespace).reverse)

/-- JS `s.toLowerCase()` on the ASCII range (the only range the sources
compare). -/
def lowerStr (s : String) : String :=
  String.mk (s.data.map Char.toLower)

/-- JS `s.startsWith(pre)`. -/
def startsWith (pre s : String) : Bool :=
  pre.data.isPrefixOf s.data

/-- JS `s.includes(pat)` over character lists. -/
def containsList (pat : List Char) : List Char → Bool
  | [] => pat.isEmpty
  | c :: cs => pat.isPrefixOf (c :: cs) || containsList pat cs

/-- JS `s.includes(pat)`. -/
def containsSub (s pat : String) : Bool :=
  containsList pat.data s.data

/-- JS `array.join(sep)`. -/
def joinStr (sep : String) : List String → String
  | [] => ""
  | [x] => x
  | x :: xs => x ++ sep ++ joinStr sep xs

/-- JS `s.replaceAll("\\", "/")` as used for path normalization. -/
def slashify (s : String) : String :=
  String.mk (s.data.map (fun c => if c = '\\' then '/' else c))

/-- Insert into a lexicographically sorted list of strings. -/
def insertSorted (x : String) : List String → List String
  | [] => [x]
  | y :: ys => if x ≤ y then x :: y :: ys else y :: insertSorted x ys

/-- Lexicographic insertion sort (the spec only asks that surface hashing
"first sorts names lexicographically"). -/
def sortStrings (l : List String) : List String :=
  l.foldr insertSorted []

/-! ### cache.ts (staged in src/src/onboarding.ts after the document
separator; line numbers below are its own) -/

/-- JS `s.slice(0, n)` on an ASCII digest string. -/
def takeStr (n : Nat) (s : String) : String :=
  String.mk (s.data.take n)

/-- `fileHash` from cache.ts lines 206–209: read the file's bytes and return
their hex SHA-1 digest. The read is the only failure mode (`fs.readFile`
throws), modelled by `Env.fs` returning `none`. -/
def fileHash (env : Env) (rel : String) : Except String String :=
  match env.fs rel with
  | some bytes => .ok (env.hashBytes bytes)
  | none => .error "ENOENT"

/-- `refFromPath` from cache.ts lines 212–214: stable short record filename
derived from the key string (not from content) — hex SHA-1 of the key,
truncated to 12 characters, plus `".json"`. -/
def refFromPath (env : Env) (p : String) : String :=
  takeStr 12 (env.hashStr p) ++ ".json"

/-- `computePublicSurfaceHash` from cache.ts lines 216–218: hex SHA-1 of the
sorted symbol names joined with `","`, truncated to 12 characters.
(`Array.prototype.sort()` with no comparator sorts strings by code units;
`sortStrings` is the same order on the ASCII names involved.) -/
def computePublicSurfaceHash (env : Env) (names : List String) : String :=
  takeStr 12 (env.hashStr (joinStr "," (sortStrings names)))

/-- `loadFileCache` from cache.ts lines 239–251: look the path up in the
index's `files` map — no entry means null — then read and parse the record
file named by `entry.ref` in the files directory, with any read or parse
failure yielding null (never an exception). -/
def loadFileCache (st : Store) (relativePath : String) : Option FileCache :=
  match lookupKey st.index.files relativePath with
  | none => none
  | some entry => (lookupKey st.filesDir entry.ref).bind id

/-- Keyword bucket for `k` (`idx.keywordIndex[k] ?? []`). -/
def bucketOf (kwIdx : List (String × List String)) (k : String) : List String :=
  (lookupKey kwIdx k).getD []

/-- One step of the "Add to new keywords" loop of `saveFileCache` (cache.ts
lines 277–282): create the bucket for `k` on demand, and append `p` to it
unless already included. -/
def insertPath (kwIdx : List (String × List String)) (k : String) (p : String) :
    List (String × List String) :=
  if kwIdx.any (fun e => e.1 = k) then
    kwIdx.map (fun e => if e.1 = k then (e.1, if p ∈ e.2 then e.2 else e.2 ++ [p]) else e)
  else
    kwIdx ++ [(k, [p])]

/-- The keyword-index rebuild inside `saveFileCache` (cache.ts lines
269–282): first remove `p` from every existing bucket, deleting buckets that
become empty; then run the add loop over the new keywords. -/
def reconcile (kwIdx : List (String × List String)) (p : String) (newKs : List String) :
    List (String × List String) :=
  let removed :=
    (kwIdx.map (fun e => (e.1, e.2.filter (fun q => q ≠ p)))).filter (fun e => e.2 ≠ [])
  newKs.foldl (fun acc k => insertPath acc k p) removed

/-- Order-preserving deduplication, first occurrence kept — the effect of
accumulating into a JS `Set` and spreading it back to an array. -/
def dedup : List String → List String
  | [] => []
  | x :: xs => x :: dedup (xs.filter (fun y => y ≠ x))
termination_by l => l.length
decreasing_by
  simp only [List.length_cons]
  exact Nat.lt_succ_of_le (List.length_filter_le _ _)

/-- `lookupByKeywords` from cache.ts lines 288–295: per requested keyword take
its bucket (`idx.keywordIndex[k] ?? []`) and return the union of all of them
(OR logic), each path once, in first-occurrence order. -/
def lookupByKeywords (st : Store) (ks : List String) : List String :=
  dedup (ks.flatMap (fun k => bucketOf st.index.keywordIndex k))

/-- `saveFileCache` from cache.ts lines 253–285: write the record to its
path-derived slot `refFromPath(relativePath)` in the files directory, set the
index entry `files[relativePath] = { hash, ref }`, rebuild the keyword index
for this path from `data.keywords ?? []` (see `reconcile`), and write the
index back. -/
def saveFileCache (env : Env) (st : Store) (relativePath : String)
    (data : FileCache) : Store :=
  { st with
    filesDir := upsert st.filesDir (refFromPath env relativePath) (some data)
    index :=
      { files := upsert st.index.files relativePath
          ⟨data.hash, refFromPath env relativePath⟩
        keywordIndex := reconcile st.index.keywordIndex relativePath
          (data.keywords.getD []) } }

/-- `saveSymbolCard` from cache.ts lines 309–319: write the card to the
symbols directory under `refFromPath("symbol:" + symbol)` and point the
symbols index at that filename. -/
def saveSymbolCard (env : Env) (st : Store) (card : SymbolCard) : Store :=
  { st with
    symbolsDir := upsert st.symbolsDir
      (refFromPath env ("symbol:" ++ card.symbol)) (some card)
    symbolsIndex :=
      ⟨upsert st.symbolsIndex.symbols card.symbol
        (refFromPath env ("symbol:" ++ card.symbol))⟩ }

/-- `loadAllSymbols` from cache.ts lines 321–333: walk
`Object.values(idx.symbols)` in order and collect every record that reads and
parses, skipping corrupt or unreadable entries silently. -/
def loadAllSymbols (st : Store) : List SymbolCard :=
  (st.symbolsIndex.symbols.map (fun e => e.2)).filterMap
    (fun fname => (lookupKey st.symbolsDir fname).bind id)

/-- `getGitHead` from cache.ts lines 337–343: `git rev-parse HEAD`, with any
failure (no repository) caught and turned into null — never an error. -/
def getGitHead (env : Env) : Option String :=
  env.git.map (fun g => g.head)


/-! ### saveSymbol.ts -/

/-- `parseRelated` from src/saveSymbol.ts: parse the
`"symbol:relation,symbol:relation"` CLI format. An empty relation segment
defaults to `"related"` (`rest.join(":").trim() || "related"`). -/
def parseRelated (raw : String) : List SymbolRelation :=
  (((splitChar ',' raw).map trimStr).filter (fun s => s ≠ "")).map (fun s =>
    match splitChar ':' s with
    | [] => { symbol := "", relation := "related" }
    | sym :: rest =>
      let r := trimStr (joinStr ":" rest)
      { symbol := trimStr sym, relation := if r = "" then "related" else r })

/-- The argument record of `saveSymbol` in src/saveSymbol.ts. -/
structure SymbolInput where
  symbol : String
  kind : String
  file : String
  signature : Option String := none
  purpose : String
  related : Option (List SymbolRelation) := none
  keywords : Option (List String) := none

/-- `saveSymbol` from src/saveSymbol.ts: builds the card (optional fields kept
only when truthy resp. non-empty) and stores it; returns the symbol name. -/
def saveSymbol (env : Env) (st : Store) (inp : SymbolInput) : String × Store :=
  let card : SymbolCard :=
    { symbol := inp.symbol
      kind := inp.kind
      file := inp.file
      purpose := inp.purpose
      updatedAt := env.now
      signature := match inp.signature with
        | some s => if s = "" then none else some s
        | none => none
      related := match inp.related with
        | some l => if l.length > 0 then some l else none
        | none => none
      keywords := match inp.keywords with
        | some l => if l.length > 0 then some l else none
        | none => none }
  (inp.symbol, saveSymbolCard env st card)

/-! ### save.ts -/

/-- `findWhereUsed` from src/save.ts: post-processes the raw output lines of
the external recursive grep for the file's basename (`Env.grepOut`): drop
blank lines (`filter(Boolean)`), drop node_modules/.repoctx hits, drop the
file itself, keep the first five. The surrounding try/catch returning `[]` is
inside the external `grepOut` oracle (grep failure yields no lines). -/
def findWhereUsed (env : Env) (relPath : String) : List String :=
  ((((env.grepOut relPath).filter (fun f => f ≠ "")).filter
      (fun f => ¬ (containsSub f "node_modules" || containsSub f ".repoctx"))).filter
    (fun f => f ≠ "./" ++ relPath ∧ f ≠ relPath)).take 5

/-- The argument record of `saveManual` in src/save.ts. -/
structure SaveInput where
  filePath : String
  summary : String
  symbols : List String
  exports : Option (List ExportEntry) := none
  keywords : List String
  dependencies : Option (List String) := none
  footguns : Option String := none
  delta : Option String := none
  meta : Bool := false

/-- The canonical repo-relative path computed at the top of `saveManual`:
virtual (meta) keys keep the given string, real paths go through
`path.relative(process.cwd(), path.resolve(filePath))`; both replace
backslashes by slashes. -/
def saveRel (env : Env) (inp : SaveInput) : String :=
  if inp.meta then slashify inp.filePath
  else slashify (env.resolveRel inp.filePath)

/-- The `entry` object literal assembled by `saveManual` (src/save.ts lines
105–121) for canonical path `rel` and content hash `hash`: derived public
surface hash, "Used in" summary augmentation, and the optional fields kept
only when truthy resp. non-empty. -/
def saveEntry (env : Env) (inp : SaveInput) (rel hash : String) : FileCache :=
  let publicSurfaceHash : Option String :=
    if inp.symbols.length > 0 then some (computePublicSurfaceHash env inp.symbols)
    else none
  let head := getGitHead env
  let whereUsed := if inp.meta then [] else findWhereUsed env rel
  { path := rel
    hash := hash
    summary :=
      if whereUsed.length > 0 then
        inp.summary ++ "\nUsed in: " ++ joinStr ", " whereUsed
      else inp.summary
    symbols := inp.symbols
    keywords := some inp.keywords
    updatedAt := env.now
    publicSurfaceHash := match publicSurfaceHash with
      | some h => if h = "" then none else some h
      | none => none
    exports := match inp.exports with
      | some l => if l.length > 0 then some l else none
      | none => none
    dependencies := match inp.dependencies with
      | some l => if l.length > 0 then some l else none
      | none => none
    footguns := match inp.footguns with
      | some s => if s = "" then none else some s
      | none => none
    delta := match inp.delta with
      | some s => if s = "" then none else some s
      | none => none
    repoHeadAtSave := match head with
      | some h => if h = "" then none else some h
      | none => none }

/-- `saveManual` from src/save.ts: canonicalize the path (`saveRel`), hash the
file (the sentinel `"meta"` for virtual entries; the read may throw), assemble
the entry (`saveEntry`), store it via `saveFileCache`, and return the
canonical path. -/
def saveManual (env : Env) (st : Store) (inp : SaveInput) :
    Except String (String × Store) :=
  match (if inp.meta then Except.ok "meta" else fileHash env (saveRel env inp)) with
  | .error e => .error e
  | .ok hash =>
    .ok (saveRel env inp,
      saveFileCache env st (saveRel env inp) (saveEntry env inp (saveRel env inp) hash))

/-! ### get.ts -/

/-- Staleness classification of one module card (spec section 4.4's
`classify`). In get.ts this logic appears inline both in the module loop of
`getContext` (lines 82–91) and in `getStale` (lines 130–139): sentinel hash
`"meta"` skips the check; otherwise the file is re-read and re-hashed, a
failed read is `missing` and a hash mismatch is `stale`. -/
inductive Staleness where
  | fresh
  | stale (reason : String)
  | missing (reason : String)
deriving Repr, DecidableEq

/-- The shared per-card classification body of get.ts (see `Staleness`). -/
def classify (env : Env) (rel : String) (cache : FileCache) : Staleness :=
  if cache.hash = "meta" then .fresh
  else
    match env.fs rel with
    | none => .missing "file not found"
    | some bytes =>
      if env.hashBytes bytes = cache.hash then .fresh
      else .stale "file content changed"

/-- One module block emitted by the `getContext` listing loop: the path header,
the loaded card whose fields are printed, and the staleness warning appended at
the end of the block (`fresh` prints no warning). -/
structure ModuleEntry where
  rel : String
  cache : FileCache
  note : Staleness
deriving Repr, DecidableEq

/-- The result of `getContext`, by the three return points of the TypeScript
function: the `No symbol found: …` string, the single formatted symbol card,
or the listing of module blocks followed by the symbol section. -/
inductive GetResult where
  | symbolNotFound (name : String)
  | symbolFound (card : SymbolCard)
  | listing (modules : List ModuleEntry) (symbols : List SymbolCard)
deriving Repr, DecidableEq

/-- The path filter test of the `getContext` module loop (get.ts lines 61–65):
with a filter present, a path passes when the filter denotes the cwd (empty or
`"."`), is exactly the path, or is a slash-delimited prefix of it. -/
def passesFilter (relFilter : Option String) (rel : String) : Bool :=
  match relFilter with
  | none => true
  | some f => f = "" || f = "." || rel = f || startsWith (f ++ "/") rel

/-- The module loop of `getContext` (get.ts lines 60–94) over candidate paths:
filtered by `relFilter`, a path whose record fails to load is skipped
(`if (!cache) continue`), and each shown card carries its staleness note. -/
def contextModules (env : Env) (st : Store) (relFilter : Option String)
    (paths : List String) : List ModuleEntry :=
  paths.filterMap (fun rel =>
    if passesFilter relFilter rel then
      match loadFileCache st rel with
      | none => none
      | some cache => some { rel := rel, cache := cache, note := classify env rel cache }
    else none)

/-- The truthy keyword argument (`keywords && keywords.length > 0` in
get.ts): present only when a non-empty list was supplied. -/
def truthyKeywords (keywords : Option (List String)) : Option (List String) :=
  match keywords with
  | some ks => if ks.length > 0 then some ks else none
  | none => none

/-- `relFilter` of get.ts lines 54–56: the path filter resolved against the
process cwd, with JavaScript falsiness of the empty string
(`filterPath ? … : undefined`). -/
def relFilterOf (env : Env) (filterPath : Option String) : Option String :=
  match filterPath with
  | some f => if f = "" then none else some (slashify (env.resolveRel f))
  | none => none

/-- The symbol-lookup branch of `getContext` (get.ts lines 22–41):
case-insensitive exact `find` over all symbol cards, with the explicit
not-found result. -/
def symbolLookup (st : Store) (s : String) : GetResult :=
  match (loadAllSymbols st).find? (fun c => lowerStr c.symbol = lowerStr s) with
  | some m => .symbolFound m
  | none => .symbolNotFound s

/-- The non-symbol branch of `getContext` (get.ts lines 43–119): resolve
candidate paths through the keyword index when keywords are truthy (otherwise
every indexed path), run the module loop, and filter the symbol corpus by the
symbols' own keyword sets. The source tests
`keywords && keywords.length > 0` once for `targetPaths` and once for
`symbolsToShow`; both tests are the single match on `truthyKeywords` here. -/
def listingResult (env : Env) (st : Store) (filterPath : Option String)
    (keywords : Option (List String)) : GetResult :=
  match truthyKeywords keywords with
  | some ks =>
    .listing
      (contextModules env st (relFilterOf env filterPath) (lookupByKeywords st ks))
      ((loadAllSymbols st).filter (fun s =>
        ks.any (fun k => (s.keywords.getD []).contains k)))
  | none =>
    .listing
      (contextModules env st (relFilterOf env filterPath)
        (st.index.files.map (fun e => e.1)))
      (loadAllSymbols st)

/-- The truthy symbol argument of `getContext` (`if (symbol)` in get.ts):
present only when a non-empty name was supplied. -/
def truthySymbol (symbol : Option String) : Option String :=
  match symbol with
  | some s => if s = "" then none else some s
  | none => none

/-- `getContext` from src/get.ts. `symbol`, `keywords` and `filterPath` are
the optional arguments; JavaScript truthiness of the strings and of
`keywords.length` is made explicit. A truthy symbol name short-circuits into
`symbolLookup` before any other argument is read. -/
def getContext (env : Env) (st : Store) (filterPath : Option String)
    (keywords : Option (List String)) (symbol : Option String) : GetResult :=
  match truthySymbol symbol with
  | some s => symbolLookup st s
  | none => listingResult env st filterPath keywords

/-- The per-path body of `getStale` (get.ts lines 128–140), phrased via
`classify`: unloadable and meta cards are skipped, stale and missing cards are
reported with their reason. -/
def stalenessOf (env : Env) (st : Store) (rel : String) : Option (String × String) :=
  match loadFileCache st rel with
  | none => none
  | some cache =>
    match classify env rel cache with
    | .fresh => none
    | .stale r => some (rel, r)
    | .missing r => some (rel, r)

/-- The loop of `getStale` over a list of candidate paths: collect each
path's own stale/missing report. -/
def getStaleList (env : Env) (st : Store) (paths : List String) :
    List (String × String) :=
  paths.filterMap (fun rel => stalenessOf env st rel)

/-- `getStale` from src/get.ts: walk every indexed path
(`Object.keys(idx.files)`) and collect the stale/missing reports. -/
def getStale (env : Env) (st : Store) : List (String × String) :=
  getStaleList env st (st.index.files.map (fun e => e.1))

/-! ### checkpoint.ts -/

/-- `saveCheckpoint` from src/checkpoint.ts: `git rev-parse` supplies head and
branch and throws outside a git repository (`Env.git = none`); on success the
singleton checkpoint state is overwritten and the checkpoint returned. The
written `RepoctxState` wrapper also records `repoRoot` (the process cwd),
which no reader consumes and which is omitted from `Store`. -/
def saveCheckpoint (env : Env) (st : Store) : Except String (Checkpoint × Store) :=
  match env.git with
  | none => .error "not a git repository"
  | some g =>
    let cp : Checkpoint := { head := g.head, branch := g.branch, savedAt := env.now }
    .ok (cp, { st with checkpoint := some cp })

/-- `loadCheckpoint` from src/checkpoint.ts: any read/parse failure yields
`null`, never an error. -/
def loadCheckpoint (st : Store) : Option Checkpoint :=
  st.checkpoint

/-! ### Helper lemmas about the store primitives -/

theorem lookupKey_upsert {α : Type} (l : List (String × α)) (k : String) (v : α) :
    lookupKey (upsert l k v) k = some v := by
  induction l with
  | nil => simp [upsert, lookupKey, List.find?]
  | cons e es ih =>
    by_cases h : e.1 = k
    · simp [upsert, lookupKey, List.find?, h]
    · simpa [upsert, lookupKey, List.find?, h, lookupKey] using ih

theorem lookupKey_mem {α : Type} {l : List (String × α)} {k : String} {v : α}
    (h : lookupKey l k = some v) : (k, v) ∈ l := by
  unfold lookupKey at h
  cases hfind : l.find? (fun e => e.1 = k) with
  | none => rw [hfind] at h; cases h
  | some e =>
    rw [hfind] at h
    have hk : e.1 = k := by simpa using List.find?_some hfind
    have hm : e ∈ l := List.mem_of_find?_eq_some hfind
    have hv : e.2 = v := by
      have h' : some e.2 = some v := h
      exact Option.some.inj h'
    have he : (e.1, e.2) ∈ l := by
      have heta : (e.1, e.2) = e := rfl
      rw [heta]
      exact hm
    rw [hk, hv] at he
    exact he

theorem loadFileCache_saveFileCache (env : Env) (st : Store) (rel : String)
    (entry : FileCache) :
    loadFileCache (saveFileCache env st rel entry) rel = some entry := by
  unfold loadFileCache saveFileCache
  show (match lookupKey
      (upsert st.index.files rel ⟨entry.hash, refFromPath env rel⟩) rel with
    | none => none
    | some e =>
      (lookupKey (upsert st.filesDir (refFromPath env rel) (some entry)) e.ref).bind id)
    = some entry
  rw [lookupKey_upsert]
  show (lookupKey (upsert st.filesDir (refFromPath env rel) (some entry))
    (refFromPath env rel)).bind id = some entry
  rw [lookupKey_upsert]
  rfl

theorem mem_dedup (a : String) : ∀ l : List String, a ∈ dedup l ↔ a ∈ l := by
  intro l
  induction l using dedup.induct with
  | case1 => simp [dedup]
  | case2 x xs ih =>
    rw [dedup]
    by_cases hax : a = x
    · subst hax; simp
    · simp only [List.mem_cons, ih, List.mem_filter]
      constructor
      · rintro (rfl | ⟨h, _⟩)
        · exact .inl rfl
        · exact .inr h
      · rintro (rfl | h)
        · exact .inl rfl
        · exact .inr ⟨h, by simpa using hax⟩

theorem mem_lookupByKeywords (st : Store) (ks : List String) (p : String) :
    p ∈ lookupByKeywords st ks ↔ ∃ k ∈ ks, p ∈ bucketOf st.index.keywordIndex k := by
  simp [lookupByKeywords, mem_dedup, List.mem_flatMap]

theorem insertPath_inv {kwIdx : List (String × List String)} {p k k' : String}
    (hne : k' ≠ k)
    (hinv : ∀ e ∈ kwIdx, e.1 = k → p ∉ e.2) :
    ∀ e ∈ insertPath kwIdx k' p, e.1 = k → p ∉ e.2 := by
  intro e he hek
  unfold insertPath at he
  split at he
  · rw [List.mem_map] at he
    obtain ⟨f, hf, rfl⟩ := he
    by_cases hfk : f.1 = k'
    · rw [if_pos hfk] at hek
      have hek' : f.1 = k := hek
      exact absurd (hfk.symm.trans hek') hne
    · rw [if_neg hfk] at hek ⊢
      exact hinv f hf hek
  · rw [List.mem_append] at he
    rcases he with h | h
    · exact hinv e h hek
    · simp only [List.mem_singleton] at h
      subst h
      exact absurd hek.symm hne.symm

theorem reconcile_inv (kwIdx : List (String × List String)) (p : String)
    (newKs : List String) (k : String) (hk : k ∉ newKs) :
    ∀ e ∈ reconcile kwIdx p newKs, e.1 = k → p ∉ e.2 := by
  have main : ∀ (ks : List String) (acc : List (String × List String)), k ∉ ks →
      (∀ e ∈ acc, e.1 = k → p ∉ e.2) →
      ∀ e ∈ ks.foldl (fun acc k' => insertPath acc k' p) acc, e.1 = k → p ∉ e.2 := by
    intro ks
    induction ks with
    | nil => intro acc _ hinv; simpa using hinv
    | cons x xs ih =>
      intro acc hks hinv
      simp only [List.foldl_cons]
      have hxk : x ≠ k := fun h => hks (h ▸ List.mem_cons_self x xs)
      exact ih _ (fun h => hks (List.mem_cons_of_mem x h)) (insertPath_inv hxk hinv)
  unfold reconcile
  apply main newKs _ hk
  intro e he hek
  rw [List.mem_filter] at he
  obtain ⟨he, _⟩ := he
  rw [List.mem_map] at he
  obtain ⟨f, _, rfl⟩ := he
  intro hc
  have hc' : p ∈ f.2.filter (fun q => q ≠ p) := hc
  rw [List.mem_filter] at hc'
  exact absurd rfl (of_decide_eq_true hc'.2)

theorem not_mem_bucketOf_reconcile (kwIdx : List (String × List String))
    (p : String) (newKs : List String) (k : String) (hk : k ∉ newKs) :
    p ∉ bucketOf (reconcile kwIdx p newKs) k := by
  intro hmem
  unfold bucketOf lookupKey at hmem
  cases hfind : (reconcile kwIdx p newKs).find? (fun e => e.1 = k) with
  | none => rw [hfind] at hmem; simp at hmem
  | some e =>
    have hek : e.1 = k := by
      have := List.find?_some hfind
      simpa using this
    have hin : e ∈ reconcile kwIdx p newKs := List.mem_of_find?_eq_some hfind
    rw [hfind] at hmem
    have hmem' : p ∈ e.2 := hmem
    exact reconcile_inv kwIdx p newKs k hk e hin hek hmem'

theorem fileHash_ok_elim (env : Env) (rel hash : String)
    (h : fileHash env rel = .ok hash) :
    ∃ bytes, env.fs rel = some bytes ∧ hash = env.hashBytes bytes := by
  unfold fileHash at h
  cases hfs : env.fs rel with
  | none => rw [hfs] at h; cases h
  | some bytes =>
    rw [hfs] at h
    cases h
    exact ⟨bytes, rfl, rfl⟩

theorem saveManual_ok_elim (env : Env) (st : Store) (inp : SaveInput)
    (r : String) (st' : Store) (h : saveManual env st inp = .ok (r, st')) :
    r = saveRel env inp ∧ ∃ hash,
      (inp.meta = true → hash = "meta") ∧
      (inp.meta = false → fileHash env r = .ok hash) ∧
      st' = saveFileCache env st r (saveEntry env inp r hash) := by
  simp only [saveManual] at h
  cases hres : (if inp.meta then Except.ok "meta" else fileHash env (saveRel env inp)) with
  | error e =>
    rw [hres] at h
    cases h
  | ok hash =>
    rw [hres] at h
    simp only [Except.ok.injEq, Prod.mk.injEq] at h
    obtain ⟨hr, hst⟩ := h
    refine ⟨hr.symm, hash, ?_, ?_, by rw [← hr, ← hst]⟩
    · intro hm
      rw [hm] at hres
      simpa using hres.symm
    · intro hm
      rw [hm] at hres
      simp at hres
      rw [← hr]
      exact hres

theorem mem_contextModules (env : Env) (st : Store) (rf : Option String)
    (paths : List String) (m : ModuleEntry) :
    m ∈ contextModules env st rf paths ↔
      m.rel ∈ paths ∧ passesFilter rf m.rel = true ∧
      loadFileCache st m.rel = some m.cache ∧ m.note = classify env m.rel m.cache := by
  unfold contextModules
  rw [List.mem_filterMap]
  constructor
  · rintro ⟨rel, hrel, hf⟩
    by_cases hp : passesFilter rf rel = true
    · rw [if_pos hp] at hf
      cases hl : loadFileCache st rel with
      | none => rw [hl] at hf; cases hf
      | some cache =>
        rw [hl] at hf
        cases hf
        exact ⟨hrel, hp, hl, rfl⟩
    · rw [if_neg hp] at hf; cases hf
  · rintro ⟨hrel, hp, hl, hn⟩
    refine ⟨m.rel, hrel, ?_⟩
    rw [if_pos hp, hl]
    show some { rel := m.rel, cache := m.cache, note := classify env m.rel m.cache } = some m
    rw [← hn]

theorem truthySymbol_some (name : String) (hname : name ≠ "") :
    truthySymbol (some name) = some name := by
  show (if name = "" then none else some name : Option String) = some name
  rw [if_neg hname]

theorem truthyKeywords_some (ks : List String) (hks : ks ≠ []) :
    truthyKeywords (some ks) = some ks := by
  show (if ks.length > 0 then some ks else none : Option (List String)) = some ks
  rw [if_pos (List.length_pos.mpr hks)]

theorem getContext_symbol (env : Env) (st : Store) (f : Option String)
    (ks : Option (List String)) (name : String) (hname : name ≠ "") :
    getContext env st f ks (some name) = symbolLookup st name := by
  unfold getContext
  rw [truthySymbol_some name hname]

theorem getContext_nosymbol (env : Env) (st : Store) (f : Option String)
    (ks : Option (List String)) :
    getContext env st f ks none = listingResult env st f ks := rfl

theorem listingResult_keywords (env : Env) (st : Store) (f : Option String)
    (ks : List String) (hks : ks ≠ []) :
    listingResult env st f (some ks) =
      .listing (contextModules env st (relFilterOf env f) (lookupByKeywords st ks))
        ((loadAllSymbols st).filter (fun s =>
          ks.any (fun k => (s.keywords.getD []).contains k))) := by
  unfold listingResult
  rw [truthyKeywords_some ks hks]

theorem listingResult_nokeywords (env : Env) (st : Store) (f : Option String) :
    listingResult env st f none =
      .listing (contextModules env st (relFilterOf env f)
          (st.index.files.map (fun e => e.1)))
        (loadAllSymbols st) := rfl

theorem loadAllSymbols_readable (st : Store) (c : SymbolCard)
    (hc : c ∈ loadAllSymbols st) : ∃ fname, (fname, some c) ∈ st.symbolsDir := by
  unfold loadAllSymbols at hc
  rw [List.mem_filterMap] at hc
  obtain ⟨fname, hf, hlk⟩ := hc
  cases hl : lookupKey st.symbolsDir fname with
  | none => rw [hl] at hlk; cases hlk
  | some v =>
    rw [hl] at hlk
    cases v with
    | none => cases hlk
    | some c' =>
      have hcc : c' = c := by
        have h' : some c' = some c := hlk
        exact Option.some.inj h'
      subst hcc
      exact ⟨fname, lookupKey_mem hl⟩

theorem readable_loadAllSymbols (st : Store) (n fname : String) (c : SymbolCard)
    (hidx : (n, fname) ∈ st.symbolsIndex.symbols)
    (hdir : lookupKey st.symbolsDir fname = some (some c)) :
    c ∈ loadAllSymbols st := by
  unfold loadAllSymbols
  rw [List.mem_filterMap]
  refine ⟨fname, ?_, ?_⟩
  · rw [List.mem_map]
    exact ⟨(n, fname), hidx, rfl⟩
  · rw [hdir]
    rfl

/-! ### Concrete fixtures used by the witness theorems -/

/-- A small deterministic environment: one real file, an injective toy digest,
no git context, no grep hits, identity path resolution. -/
def demoEnv : Env :=
  { fs := fun p => if p = "src/users/dal.js" then some [1, 2] else none
    hashBytes := fun b => joinStr "-" (b.map toString)
    hashStr := fun s => s ++ "#"
    git := none
    now := "2024-01-01T00:00:00Z"
    resolveRel := id
    grepOut := fun _ => [] }

/-- `demoEnv` inside a git repository. -/
def demoGitEnv : Env :=
  { demoEnv with git := some { head := "abc1234", branch := "main" } }

/-- `demoEnv` where the reverse-reference grep finds one referencing file. -/
def demoGrepEnv : Env :=
  { demoEnv with grepOut := fun _ => ["./other.ts"] }

def emptyStore : Store :=
  { index := { files := [], keywordIndex := [] }
    filesDir := []
    symbolsIndex := ⟨[]⟩
    symbolsDir := []
    checkpoint := none }

/-- A minimal stored module card. -/
def demoCard (p h : String) : FileCache :=
  { path := p, hash := h, summary := "S", symbols := [], updatedAt := "T" }

/-- A stored symbol card tagged `auth`. -/
def demoSymbolCard : SymbolCard :=
  { symbol := "FooBar", kind := "function", file := "src/users/dal.js"
    purpose := "P", updatedAt := "T", keywords := some ["auth"] }

/-- A store with two readable module records, one corrupt module record, one
readable symbol record and one corrupt symbol record. -/
def demoStore : Store :=
  { index :=
      { files :=
          [("src/users/dal.js", ⟨"1-2", "f1.json"⟩)
          , ("src/users2/x.js", ⟨"9", "f2.json"⟩)
          , ("foo2/x.js", ⟨"9", "f3.json"⟩)]
        keywordIndex := [("auth", ["src/users/dal.js"])] }
    filesDir :=
      [("f1.json", some (demoCard "src/users/dal.js" "1-2"))
      , ("f2.json", some (demoCard "src/users2/x.js" "9"))
      , ("f3.json", none)]
    symbolsIndex := ⟨[("FooBar", "s1.json"), ("Broken", "s2.json")]⟩
    symbolsDir := [("s1.json", some demoSymbolCard), ("s2.json", none)]
    checkpoint := none }

/-- A meta (virtual) save input for a given keyword set. -/
def metaInput (ks : List String) : SaveInput :=
  { filePath := ".meta/p", summary := "S", symbols := [], keywords := ks
    meta := true }

/-- The store after saving `metaInput ["a", "b"]` on the empty store. -/
def demoSt1 : Store :=
  match saveManual demoEnv emptyStore (metaInput ["a", "b"]) with
  | .ok (_, st) => st
  | .error _ => emptyStore

/-- The store after re-saving the same path with keyword set `["c"]`. -/
def demoSt2 : Store :=
  match saveManual demoEnv demoSt1 (metaInput ["c"]) with
  | .ok (_, st) => st
  | .error _ => emptyStore

theorem saveManual_isOk (env : Env) (st : Store) (inp : SaveInput) :
    (saveManual env st inp).isOk =
      (if inp.meta then Except.ok "meta" else fileHash env (saveRel env inp)).isOk := by
  unfold saveManual
  cases h : (if inp.meta then Except.ok "meta" else fileHash env (saveRel env inp)) with
  | error e => rfl
  | ok hash => rfl

/-! ### Claim theorems -/

/-- C9: `parseRelated "a:x,b"` yields exactly `{symbol := "a", relation := "x"}`
and `{symbol := "b", relation := "related"}`; an explicit empty label after a
colon (`"a:"`) also defaults; and in general no parsed entry ever carries an
empty relation label — an absent or empty label defaults to `"related"`
instead of failing the parse. -/
theorem parseRelated_defaults_related :
    parseRelated "a:x,b" =
      [{ symbol := "a", relation := "x" }, { symbol := "b", relation := "related" }] ∧
    parseRelated "a:" = [{ symbol := "a", relation := "related" }] ∧
    ∀ raw e, e ∈ parseRelated raw → e.relation ≠ "" := by
  refine ⟨by decide, by decide, ?_⟩
  intro raw e he
  unfold parseRelated at he
  rw [List.mem_map] at he
  obtain ⟨s, hs, rfl⟩ := he
  cases hsp : splitChar ':' s with
  | nil =>
    decide
  | cons sym rest =>
    show (if trimStr (joinStr ":" rest) = "" then "related"
      else trimStr (joinStr ":" rest)) ≠ ""
    by_cases hr : trimStr (joinStr ":" rest) = ""
    · rw [if_pos hr]
      decide
    · rw [if_neg hr]
      exact hr

theorem parseRelated_defaults_related_witness :
    ({ symbol := "b", relation := "related" } : SymbolRelation).relation ≠ "" :=
  parseRelated_defaults_related.2.2 "a:x,b"
    { symbol := "b", relation := "related" } (by decide)

/-- C7: saving a checkpoint surfaces a hard error exactly when no
version-control context is available to supply a revision identifier, and
succeeds with the captured head/branch otherwise; the module-card writer —
the only other fallible core operation — absorbs a missing git context
(its success is unchanged by removing git) instead of propagating it. -/
theorem checkpoint_requires_git (env : Env) (st : Store) :
    (env.git = none → saveCheckpoint env st = .error "not a git repository") ∧
    (∀ g, env.git = some g →
      saveCheckpoint env st =
        .ok (⟨g.head, g.branch, env.now⟩,
          { st with checkpoint := some ⟨g.head, g.branch, env.now⟩ })) ∧
    (∀ inp, (saveManual { env with git := none } st inp).isOk =
      (saveManual env st inp).isOk) := by
  refine ⟨?_, ?_, ?_⟩
  · intro h
    unfold saveCheckpoint
    rw [h]
  · intro g h
    unfold saveCheckpoint
    rw [h]
  · intro inp
    rw [saveManual_isOk, saveManual_isOk]
    rfl

theorem checkpoint_requires_git_witness :
    saveCheckpoint demoEnv emptyStore = .error "not a git repository" :=
  (checkpoint_requires_git demoEnv emptyStore).1 rfl

/-- C1: after `saveManual` stores path `r` once and then again with a new
keyword set, any keyword of the old set that is absent from the new set no
longer resolves `r` through the keyword index: re-saving leaves no stale
keyword-index membership. -/
theorem resave_no_stale_keyword_membership
    (env : Env) (st st₁ st₂ : Store) (inp₁ inp₂ : SaveInput) (r k : String)
    (h₁ : saveManual env st inp₁ = .ok (r, st₁))
    (h₂ : saveManual env st₁ inp₂ = .ok (r, st₂))
    (hold : k ∈ inp₁.keywords) (hnew : k ∉ inp₂.keywords) :
    r ∉ lookupByKeywords st₂ [k] := by
  obtain ⟨hr, hash, -, -, hst⟩ := saveManual_ok_elim env st₁ inp₂ r st₂ h₂
  subst hst
  intro hmem
  rw [mem_lookupByKeywords] at hmem
  obtain ⟨k', hk', hp⟩ := hmem
  simp only [List.mem_singleton] at hk'
  rw [hk'] at hp
  exact not_mem_bucketOf_reconcile st₁.index.keywordIndex r inp₂.keywords k hnew hp

theorem resave_no_stale_keyword_membership_witness :
    ".meta/p" ∉ lookupByKeywords demoSt2 ["a"] :=
  resave_no_stale_keyword_membership demoEnv emptyStore demoSt1 demoSt2
    (metaInput ["a", "b"]) (metaInput ["c"]) ".meta/p" "a" rfl rfl
    (by decide) (by decide)

/-- C3: staleness classification is a total three-way function: a card whose
stored hash is the sentinel `"meta"` is always fresh irrespective of the
filesystem; otherwise the file at the card's path is re-read and re-hashed —
an equal hash is fresh, an unequal hash is stale with reason
"file content changed", and any read failure is missing with reason
"file not found"; and `getStale` classifies card-by-card, so one slice of the
index listing never aborts the classification of another. -/
theorem classify_total_three_way :
    (∀ env rel cache, cache.hash = "meta" → classify env rel cache = .fresh) ∧
    (∀ env rel cache bytes, cache.hash ≠ "meta" → env.fs rel = some bytes →
      classify env rel cache =
        if env.hashBytes bytes = cache.hash then .fresh
        else .stale "file content changed") ∧
    (∀ env rel cache, cache.hash ≠ "meta" → env.fs rel = none →
      classify env rel cache = .missing "file not found") ∧
    (∀ (env : Env) (st : Store) (l₁ l₂ : List String),
      getStaleList env st (l₁ ++ l₂) =
        getStaleList env st l₁ ++ getStaleList env st l₂) := by
  refine ⟨?_, ?_, ?_, ?_⟩
  · intro env rel cache h
    unfold classify
    rw [if_pos h]
  · intro env rel cache bytes h hfs
    unfold classify
    rw [if_neg h, hfs]
  · intro env rel cache h hfs
    unfold classify
    rw [if_neg h, hfs]
  · intro env st l₁ l₂
    unfold getStaleList
    rw [List.filterMap_append]

theorem classify_total_three_way_witness :
    classify demoEnv ".meta/p" (demoCard ".meta/p" "meta") = .fresh :=
  classify_total_three_way.1 demoEnv ".meta/p" (demoCard ".meta/p" "meta") rfl

/-- C2, counterexample to the claim as stated: with one referencing file found
by the reverse-reference grep, saving summary `"S"` and immediately loading
the card yields summary `"S\nUsed in: ./other.ts"` — a field that is neither
the hash nor a timestamp, yet differs from the saved input. -/
theorem save_load_summary_differs :
    (match saveManual demoGrepEnv emptyStore
        { filePath := "src/users/dal.js", summary := "S", symbols := []
          keywords := [] } with
      | .ok (r, st) => (loadFileCache st r).map (fun c => c.summary)
      | .error _ => none) = some "S\nUsed in: ./other.ts" ∧
    ("S\nUsed in: ./other.ts" : String) ≠ "S" := by
  exact ⟨by decide, by decide⟩

/-- C2 (amended): an immediately following load after `saveManual` returns the
stored card, whose fields equal the saved input except those derived at save
time: the hash (the sentinel for meta entries, otherwise exactly the digest of
the saved file's actual bytes), the timestamp, and the summary, which may gain
the computed "Used in: …" suffix listing referencing files. -/
theorem saveManual_load_roundtrip
    (env : Env) (st : Store) (inp : SaveInput) (r : String) (st' : Store)
    (h : saveManual env st inp = .ok (r, st')) :
    ∃ card, loadFileCache st' r = some card ∧
      card.path = r ∧
      card.symbols = inp.symbols ∧
      card.keywords = some inp.keywords ∧
      card.updatedAt = env.now ∧
      (∀ s, inp.footguns = some s → s ≠ "" → card.footguns = some s) ∧
      (∀ s, inp.delta = some s → s ≠ "" → card.delta = some s) ∧
      (∀ l, inp.dependencies = some l → l ≠ [] → card.dependencies = some l) ∧
      (∀ l, inp.exports = some l → l ≠ [] → card.exports = some l) ∧
      (inp.meta = true → card.hash = "meta") ∧
      (inp.meta = false →
        ∃ bytes, env.fs r = some bytes ∧ card.hash = env.hashBytes bytes) ∧
      (card.summary = inp.summary ∨
        card.summary = inp.summary ++ "\nUsed in: " ++
          joinStr ", " (findWhereUsed env r)) := by
  obtain ⟨hr, hash, hmeta, hnonmeta, hst⟩ := saveManual_ok_elim env st inp r st' h
  subst hst
  refine ⟨saveEntry env inp r hash, loadFileCache_saveFileCache env st r _, rfl, rfl,
    rfl, rfl, ?_, ?_, ?_, ?_, ?_, ?_, ?_⟩
  · intro s hs hne
    simp [saveEntry, hs, hne]
  · intro s hs hne
    simp [saveEntry, hs, hne]
  · intro l hl hne
    have hpos : 0 < l.length := List.length_pos.mpr hne
    simp [saveEntry, hl, hpos]
  · intro l hl hne
    have hpos : 0 < l.length := List.length_pos.mpr hne
    simp [saveEntry, hl, hpos]
  · intro hm
    have hh := hmeta hm
    simp [saveEntry, hh]
  · intro hm
    obtain ⟨bytes, hfs, hh⟩ := fileHash_ok_elim env r hash (hnonmeta hm)
    exact ⟨bytes, hfs, by simp [saveEntry, hh]⟩
  · by_cases hm : inp.meta = true
    · left
      simp [saveEntry, hm]
    · have hm' : inp.meta = false := by
        revert hm
        cases inp.meta
        · intro _; rfl
        · intro hc; exact absurd rfl hc
      by_cases hw : (findWhereUsed env r).length > 0
      · right
        simp [saveEntry, hm', hw]
      · left
        simp [saveEntry, hm', hw]

/-- The store produced by the concrete save used to witness the C2 round
trip. -/
def c2Input : SaveInput :=
  { filePath := "src/users/dal.js", summary := "S", symbols := ["a"]
    keywords := ["k"], dependencies := some ["d"], footguns := some "F" }

def c2Saved : Store :=
  match saveManual demoEnv emptyStore c2Input with
  | .ok (_, st) => st
  | .error _ => emptyStore

theorem saveManual_load_roundtrip_witness :
    ∃ card, loadFileCache c2Saved "src/users/dal.js" = some card ∧
      card.path = "src/users/dal.js" ∧
      card.symbols = c2Input.symbols ∧
      card.keywords = some c2Input.keywords ∧
      card.updatedAt = demoEnv.now ∧
      (∀ s, c2Input.footguns = some s → s ≠ "" → card.footguns = some s) ∧
      (∀ s, c2Input.delta = some s → s ≠ "" → card.delta = some s) ∧
      (∀ l, c2Input.dependencies = some l → l ≠ [] → card.dependencies = some l) ∧
      (∀ l, c2Input.exports = some l → l ≠ [] → card.exports = some l) ∧
      (c2Input.meta = true → card.hash = "meta") ∧
      (c2Input.meta = false →
        ∃ bytes, demoEnv.fs "src/users/dal.js" = some bytes ∧
          card.hash = demoEnv.hashBytes bytes) ∧
      (card.summary = c2Input.summary ∨
        card.summary = c2Input.summary ++ "\nUsed in: " ++
          joinStr ", " (findWhereUsed demoEnv "src/users/dal.js")) :=
  saveManual_load_roundtrip demoEnv emptyStore c2Input "src/users/dal.js" c2Saved rfl

/-- C6: symbol lookup matches by case-insensitive exact equality of the symbol
name — a card is returned exactly when its lowercased name equals the
lowercased query, so saving "FooBar" and querying "foobar" finds it and no
partial matching occurs — and a miss returns the explicit not-found result
value rather than raising an error. -/
theorem symbol_lookup_case_insensitive
    (env : Env) (st : Store) (f : Option String) (ks : Option (List String))
    (name : String) (hname : name ≠ "") :
    (∀ c, getContext env st f ks (some name) = .symbolFound c →
      c ∈ loadAllSymbols st ∧ lowerStr c.symbol = lowerStr name) ∧
    ((∃ c ∈ loadAllSymbols st, lowerStr c.symbol = lowerStr name) →
      ∃ c, getContext env st f ks (some name) = .symbolFound c) ∧
    ((∀ c ∈ loadAllSymbols st, lowerStr c.symbol ≠ lowerStr name) →
      getContext env st f ks (some name) = .symbolNotFound name) := by
  rw [getContext_symbol env st f ks name hname]
  unfold symbolLookup
  refine ⟨?_, ?_, ?_⟩
  · intro c hc
    cases hfind : (loadAllSymbols st).find? (fun c => lowerStr c.symbol = lowerStr name) with
    | none => rw [hfind] at hc; cases hc
    | some m =>
      rw [hfind] at hc
      cases hc
      refine ⟨List.mem_of_find?_eq_some hfind, ?_⟩
      have := List.find?_some hfind
      simpa using this
  · rintro ⟨c, hc, hlow⟩
    cases hfind : (loadAllSymbols st).find? (fun c => lowerStr c.symbol = lowerStr name) with
    | none =>
      have := List.find?_eq_none.mp hfind c hc
      simp [hlow] at this
    | some m =>
      exact ⟨m, rfl⟩
  · intro hall
    cases hfind : (loadAllSymbols st).find? (fun c => lowerStr c.symbol = lowerStr name) with
    | none => rfl
    | some m =>
      have h1 := List.find?_some hfind
      have h2 := List.mem_of_find?_eq_some hfind
      exact absurd (by simpa using h1) (hall m h2)

theorem symbol_lookup_case_insensitive_witness :
    ∃ c, getContext demoEnv demoStore none none (some "foobar") = .symbolFound c :=
  (symbol_lookup_case_insensitive demoEnv demoStore none none "foobar"
    (by decide)).2.1 ⟨demoSymbolCard, by decide, by decide⟩

/-- C10: a truthy symbol argument takes full precedence: the result is
identical to a query with no path filter and no keywords, and is either a
single symbol card or the not-found sentinel — no module cards or other
symbol cards are included. -/
theorem symbol_mode_precedence
    (env : Env) (st : Store) (f : Option String) (ks : Option (List String))
    (name : String) (hname : name ≠ "") :
    getContext env st f ks (some name) = getContext env st none none (some name) ∧
    ((∃ c, getContext env st f ks (some name) = .symbolFound c) ∨
      getContext env st f ks (some name) = .symbolNotFound name) := by
  rw [getContext_symbol env st f ks name hname,
    getContext_symbol env st none none name hname]
  refine ⟨rfl, ?_⟩
  unfold symbolLookup
  cases hfind : (loadAllSymbols st).find? (fun c => lowerStr c.symbol = lowerStr name) with
  | none => right; rfl
  | some m => left; exact ⟨m, rfl⟩

theorem symbol_mode_precedence_witness :
    getContext demoEnv demoStore (some "src/users") (some ["auth"]) (some "foobar") =
      getContext demoEnv demoStore none none (some "foobar") ∧
    ((∃ c, getContext demoEnv demoStore (some "src/users") (some ["auth"])
        (some "foobar") = .symbolFound c) ∨
      getContext demoEnv demoStore (some "src/users") (some ["auth"])
          (some "foobar") = .symbolNotFound "foobar") :=
  symbol_mode_precedence demoEnv demoStore (some "src/users") (some ["auth"])
    "foobar" (by decide)

/-- C4: a keyword query resolves its candidate module paths through the
keyword index with OR semantics (a path is a candidate exactly when some
requested keyword's bucket holds it), and filters the symbol corpus
independently: a symbol card is in the result exactly when its own keyword
set intersects the requested set, regardless of its owning module's tags. -/
theorem keyword_query_or_semantics
    (env : Env) (st : Store) (f : Option String) (ks : List String)
    (mods : List ModuleEntry) (syms : List SymbolCard) (hks : ks ≠ [])
    (h : getContext env st f (some ks) none = .listing mods syms) :
    (∀ m ∈ mods, m.rel ∈ lookupByKeywords st ks) ∧
    (∀ p, p ∈ lookupByKeywords st ks ↔ ∃ k ∈ ks, p ∈ bucketOf st.index.keywordIndex k) ∧
    (∀ s, s ∈ syms ↔ s ∈ loadAllSymbols st ∧ ∃ k ∈ ks, k ∈ s.keywords.getD []) := by
  rw [getContext_nosymbol, listingResult_keywords env st f ks hks] at h
  simp only [GetResult.listing.injEq] at h
  obtain ⟨hm, hs⟩ := h
  subst hm
  subst hs
  refine ⟨?_, fun p => mem_lookupByKeywords st ks p, ?_⟩
  · intro m hm'
    exact ((mem_contextModules env st _ _ m).mp hm').1
  · intro s
    rw [List.mem_filter]
    constructor
    · rintro ⟨h1, h2⟩
      refine ⟨h1, ?_⟩
      rw [List.any_eq_true] at h2
      obtain ⟨k, hk, hk2⟩ := h2
      exact ⟨k, hk, by simpa using hk2⟩
    · rintro ⟨h1, k, hk, hkmem⟩
      refine ⟨h1, ?_⟩
      rw [List.any_eq_true]
      exact ⟨k, hk, by simpa using hkmem⟩

def demoMods4 : List ModuleEntry :=
  match getContext demoEnv demoStore none (some ["auth"]) none with
  | .listing mods _ => mods
  | _ => []

def demoSyms4 : List SymbolCard :=
  match getContext demoEnv demoStore none (some ["auth"]) none with
  | .listing _ syms => syms
  | _ => []

theorem keyword_query_or_semantics_witness :
    demoSymbolCard ∈ demoSyms4 :=
  ((keyword_query_or_semantics demoEnv demoStore none ["auth"] demoMods4 demoSyms4
      (by decide) rfl).2.2 demoSymbolCard).mpr
    ⟨by decide, "auth", by decide, by decide⟩

/-- C5: with a canonical non-empty path filter `f`, a stored, loadable path
`p` is listed if and only if `f` denotes the current working identity (empty
or "."), or `p` equals `f`, or `p` starts with the literal string `f ++ "/"`
— so filter "foo" never matches a path under "foo2", and "src/users" matches
"src/users/dal.js" but not "src/users2/x.js". -/
theorem path_filter_matching
    (env : Env) (st : Store) (f : String) (mods : List ModuleEntry)
    (syms : List SymbolCard) (hf : f ≠ "")
    (hcanon : slashify (env.resolveRel f) = f)
    (h : getContext env st (some f) none none = .listing mods syms) (p : String) :
    (∃ m ∈ mods, m.rel = p) ↔
      (p ∈ st.index.files.map (fun e => e.1) ∧ (loadFileCache st p).isSome = true ∧
        (f = "" ∨ f = "." ∨ p = f ∨ startsWith (f ++ "/") p = true)) := by
  rw [getContext_nosymbol, listingResult_nokeywords] at h
  simp only [GetResult.listing.injEq] at h
  obtain ⟨hm, hs⟩ := h
  subst hm
  subst hs
  have hrf : relFilterOf env (some f) = some f := by
    show (if f = "" then none else some (slashify (env.resolveRel f))) = some f
    rw [if_neg hf, hcanon]
  rw [hrf] at *
  constructor
  · rintro ⟨m, hm', rfl⟩
    obtain ⟨h1, h2, h3, h4⟩ := (mem_contextModules env st _ _ m).mp hm'
    refine ⟨h1, by rw [h3]; rfl, ?_⟩
    have h2' : (decide (f = "") || decide (f = ".") || decide (m.rel = f) ||
        startsWith (f ++ "/") m.rel) = true := h2
    simp only [Bool.or_eq_true, decide_eq_true_eq] at h2'
    tauto
  · rintro ⟨h1, h2, h3⟩
    cases hl : loadFileCache st p with
    | none => rw [hl] at h2; cases h2
    | some cache =>
      refine ⟨⟨p, cache, classify env p cache⟩, ?_, rfl⟩
      rw [mem_contextModules]
      refine ⟨h1, ?_, hl, rfl⟩
      show (decide (f = "") || decide (f = ".") || decide (p = f) ||
        startsWith (f ++ "/") p) = true
      simp only [Bool.or_eq_true, decide_eq_true_eq]
      tauto

def demoMods5 : List ModuleEntry :=
  match getContext demoEnv demoStore (some "src/users") none none with
  | .listing mods _ => mods
  | _ => []

def demoSyms5 : List SymbolCard :=
  match getContext demoEnv demoStore (some "src/users") none none with
  | .listing _ syms => syms
  | _ => []

theorem path_filter_matching_witness :
    (∃ m ∈ demoMods5, m.rel = "src/users/dal.js") ∧
    ¬ ∃ m ∈ demoMods5, m.rel = "src/users2/x.js" := by
  have h := path_filter_matching demoEnv demoStore "src/users" demoMods5 demoSyms5
    (by decide) (by decide) rfl
  constructor
  · exact (h "src/users/dal.js").mpr (by decide)
  · intro hx
    exact absurd ((h "src/users2/x.js").mp hx) (by decide)

/-- C8: a corrupt or unreadable record is silently omitted: it never appears
in the context listing or in the stale report, while a readable record of the
same batch still does; on the symbol side, every listed card comes from a
readable record (corrupt entries never contribute) and every readable indexed
record is listed. Every operation is total, so the batch never aborts. -/
theorem corrupt_records_skipped
    (env : Env) (st : Store) (rel rel' : String) (cache' : FileCache)
    (hbad : loadFileCache st rel = none)
    (hgood : loadFileCache st rel' = some cache')
    (hidx : rel' ∈ st.index.files.map (fun e => e.1))
    (mods : List ModuleEntry) (syms : List SymbolCard)
    (h : getContext env st none none none = .listing mods syms) :
    (∀ m ∈ mods, m.rel ≠ rel) ∧
    (∃ m ∈ mods, m.rel = rel') ∧
    (∀ p ∈ getStale env st, p.1 ≠ rel) ∧
    (∀ c ∈ loadAllSymbols st, ∃ fname, (fname, some c) ∈ st.symbolsDir) ∧
    (∀ n fname c, (n, fname) ∈ st.symbolsIndex.symbols →
      lookupKey st.symbolsDir fname = some (some c) → c ∈ loadAllSymbols st) := by
  rw [getContext_nosymbol, listingResult_nokeywords] at h
  simp only [GetResult.listing.injEq] at h
  obtain ⟨hm, hs⟩ := h
  subst hm
  refine ⟨?_, ?_, ?_, fun c hc => loadAllSymbols_readable st c hc,
    fun n fname c h1 h2 => readable_loadAllSymbols st n fname c h1 h2⟩
  · intro m hm' heq
    obtain ⟨-, -, hload, -⟩ := (mem_contextModules env st _ _ m).mp hm'
    rw [heq, hbad] at hload
    cases hload
  · refine ⟨⟨rel', cache', classify env rel' cache'⟩, ?_, rfl⟩
    rw [mem_contextModules]
    exact ⟨hidx, rfl, hgood, rfl⟩
  · intro p hp heq
    unfold getStale getStaleList at hp
    rw [List.mem_filterMap] at hp
    obtain ⟨rel₀, hrel₀, hst⟩ := hp
    unfold stalenessOf at hst
    cases hl : loadFileCache st rel₀ with
    | none => rw [hl] at hst; cases hst
    | some cache =>
      rw [hl] at hst
      have hst' : (match classify env rel₀ cache with
        | Staleness.fresh => none
        | Staleness.stale r => some (rel₀, r)
        | Staleness.missing r => some (rel₀, r)) = some p := hst
      cases hcl : classify env rel₀ cache with
      | fresh => rw [hcl] at hst'; cases hst'
      | stale rr =>
        rw [hcl] at hst'
        cases hst'
        have heq' : rel₀ = rel := heq
        rw [heq', hbad] at hl
        cases hl
      | missing rr =>
        rw [hcl] at hst'
        cases hst'
        have heq' : rel₀ = rel := heq
        rw [heq', hbad] at hl
        cases hl

def demoMods8 : List ModuleEntry :=
  match getContext demoEnv demoStore none none none with
  | .listing mods _ => mods
  | _ => []

def demoSyms8 : List SymbolCard :=
  match getContext demoEnv demoStore none none none with
  | .listing _ syms => syms
  | _ => []

theorem corrupt_records_skipped_witness :
    ∃ m ∈ demoMods8, m.rel = "src/users/dal.js" :=
  (corrupt_records_skipped demoEnv demoStore "foo2/x.js" "src/users/dal.js"
    (demoCard "src/users/dal.js" "1-2") rfl rfl (by decide)
    demoMods8 demoSyms8 rfl).2.1

end Repoctx
